import Mathlib

/-!
Verification of the geometric-to-logical table reconstruction pipeline and the
document composition step of the yomitoku repository.

The definitions below are shallow embeddings of the Python source:
  - `src/yomitoku/table_structure_recognizer.py` (grid construction, span merging,
    cell-element extraction),
  - `src/yomitoku/utils/export.py` (HTML rendering and element ordering),
  - `src/yomitoku/cli/main.py` (the batch processing loop).

The helpers `calc_intersection`, `is_contained` and `filter_by_flag` live in
`yomitoku/utils/misc.py`, which is not part of the available sources; they are
modelled from the specification (section 4.1) and marked as such.
-/

namespace Yomitoku

/-- A rectangle `(x1, y1, x2, y2)` in integer image coordinates. -/
structure Box where
  x1 : Int
  y1 : Int
  x2 : Int
  y2 : Int
  deriving DecidableEq

/-- Modelled from the spec: `calc_intersection` is defined in `yomitoku.utils.misc`,
which is not under `src/`. Section 4.1: `intersect(a, b)` returns the overlap
rectangle of `a` and `b` if both coordinate pairs overlap with strictly positive
width and height, else `None`. -/
def calc_intersection (a b : Box) : Option Box :=
  let x1 := max a.x1 b.x1
  let y1 := max a.y1 b.y1
  let x2 := min a.x2 b.x2
  let y2 := min a.y2 b.y2
  if x1 < x2 ∧ y1 < y2 then some ⟨x1, y1, x2, y2⟩ else none

/-- Area of a rectangle (positive under the invariant `x1 < x2 ∧ y1 < y2`). -/
def boxArea (b : Box) : Int :=
  (b.x2 - b.x1) * (b.y2 - b.y1)

/-- Area of the overlap of two rectangles (zero when they are disjoint). -/
def overlapArea (a b : Box) : Int :=
  max 0 (min a.x2 b.x2 - max a.x1 b.x1) * max 0 (min a.y2 b.y2 - max a.y1 b.y1)

/-- Modelled from the spec: `is_contained` is defined in `yomitoku.utils.misc`,
which is not under `src/`. Section 4.1: `contained(outer, inner)` is true when the
overlap area over the area of `inner` exceeds a fixed threshold in 0.5 to 0.9;
we fix the threshold at 0.8. An identical box is always contained (ratio 1). -/
def is_contained (outer inner : Box) : Bool :=
  decide (8 * boxArea inner < 10 * overlapArea outer inner)

/-- One table cell, as in `TableCellSchema`: 1-based grid position, spans, a
bounding box and optional textual contents. -/
structure Cell where
  row : Nat
  col : Nat
  row_span : Nat
  col_span : Nat
  box : Box
  contents : Option String
  deriving DecidableEq

/-- The primitive cell emitted by `extract_cells` for row index `i` and column
index `j` (0-based loop indices) whose boxes intersect in `inter`. -/
def mkPrimitiveCell (i j : Nat) (inter : Box) : Cell :=
  { row := i + 1, col := j + 1, row_span := 1, col_span := 1, box := inter, contents := none }

/-- Inner loop of `extract_cells`: the cells contributed by the row box `r` with
0-based row index `i`, one for each column box intersecting `r`. -/
def extractRowCells (i : Nat) (r : Box) (col_boxes : List Box) : List Cell :=
  col_boxes.enum.filterMap (fun q => (calc_intersection r q.2).map (mkPrimitiveCell i q.1))

/-- Embeds `extract_cells` of `table_structure_recognizer.py`: for every pair of a
row box and a column box, emit a primitive 1 by 1 cell when the two intersect. -/
def extract_cells (row_boxes col_boxes : List Box) : List Cell :=
  row_boxes.enum.flatMap (fun p => extractRowCells p.1 p.2 col_boxes)

/-- Modelled from the spec: `filter_by_flag` is defined in `yomitoku.utils.misc`,
which is not under `src/`. It keeps exactly the items whose parallel flag is
`true`, preserving order (the spec: cells not claimed by any span pass through
unchanged). -/
def filter_by_flag {α : Type} (items : List α) (flags : List Bool) : List α :=
  (items.zip flags).filterMap (fun p => if p.2 then some p.1 else none)

/-- The child cells collected for one span box (`child_boxes[i]` in the source):
the cells whose box is contained in the span box, in input order. -/
def childCells (s : Box) (cells : List Cell) : List Cell :=
  cells.filter (fun c => is_contained s c.box)

/-- The flag list `check_list` of `filter_contained_cells_within_spancell`: a cell
keeps flag `true` exactly when no span box contains it. -/
def checkFlags (cells : List Cell) (span_boxes : List Box) : List Bool :=
  cells.map (fun c => !span_boxes.any (fun s => is_contained s c.box))

/-- The pass-through portion of `filter_contained_cells_within_spancell`: the
cells surviving `filter_by_flag(cells, check_list)`. -/
def spanSurvivors (cells : List Cell) (span_boxes : List Box) : List Cell :=
  filter_by_flag cells (checkFlags cells span_boxes)

/-- The merged cell built for a span box `s` from a non-empty child list
`c :: cs`: position is the componentwise minimum, spans reach the componentwise
maximum, the box is the box of the span itself. -/
def mergeOf (s : Box) (c : Cell) (cs : List Cell) : Cell :=
  let rmin := (cs.map Cell.row).foldl min c.row
  let rmax := (cs.map Cell.row).foldl max c.row
  let cmin := (cs.map Cell.col).foldl min c.col
  let cmax := (cs.map Cell.col).foldl max c.col
  { row := rmin, col := cmin, row_span := rmax - rmin + 1, col_span := cmax - cmin + 1,
    box := s, contents := none }

/-- One span box yields one merged cell when its child list is non-empty and
nothing otherwise (the `continue` branch of the source loop). -/
def mergedCellOf (s : Box) : List Cell → Option Cell
  | [] => none
  | c :: cs => some (mergeOf s c cs)

/-- All merged cells appended by the second loop of
`filter_contained_cells_within_spancell`, in span order. -/
def mergedCells (cells : List Cell) (span_boxes : List Box) : List Cell :=
  span_boxes.filterMap (fun s => mergedCellOf s (childCells s cells))

/-- The sort key order used by `sorted(cells, key=lambda x: (x["row"], x["col"]))`:
lexicographic on the pair (row, col). -/
def cellLE (a b : Cell) : Prop :=
  a.row < b.row ∨ (a.row = b.row ∧ a.col ≤ b.col)

instance : DecidableRel cellLE := fun a b => by
  unfold cellLE
  infer_instance

instance : IsTotal Cell cellLE :=
  ⟨by intro a b; unfold cellLE; omega⟩

instance : IsTrans Cell cellLE :=
  ⟨by intro a b c; unfold cellLE; omega⟩

/-- Embeds `filter_contained_cells_within_spancell`: drop every cell contained in
some span box, append one merged cell per span box with a non-empty child list,
and stable-sort the result by (row, col). `List.insertionSort` realizes the
stable sort of Python. -/
def filter_contained_cells_within_spancell (cells : List Cell) (span_boxes : List Box) : List Cell :=
  List.insertionSort cellLE (spanSurvivors cells span_boxes ++ mergedCells cells span_boxes)

/-- Row boxes are sorted by their top edge before grid construction. -/
def boxYLE (a b : Box) : Prop := a.y1 ≤ b.y1

/-- Column boxes are sorted by their left edge before grid construction. -/
def boxXLE (a b : Box) : Prop := a.x1 ≤ b.x1

instance : DecidableRel boxYLE := fun a b => by
  unfold boxYLE
  infer_instance

instance : DecidableRel boxXLE := fun a b => by
  unfold boxXLE
  infer_instance

/-- Embeds `extract_cell_elements` of `TableStructureRecognizer` (the category
dictionary is passed as its three box lists): sort row boxes by `y1` and column
boxes by `x1`, build the grid, apply the span merge, and return the cells with
the row and column counts. -/
def extract_cell_elements (rows cols spans : List Box) : List Cell × Nat × Nat :=
  let row_boxes := List.insertionSort boxYLE rows
  let col_boxes := List.insertionSort boxXLE cols
  let cells := extract_cells row_boxes col_boxes
  let merged := filter_contained_cells_within_spancell cells spans
  (merged, row_boxes.length, col_boxes.length)

/-! Helper lemmas about the embedded operations. -/

theorem filter_by_flag_map {α : Type} (p : α → Bool) (l : List α) :
    filter_by_flag l (l.map p) = l.filter p := by
  induction l with
  | nil => rfl
  | cons a l ih =>
    simp only [filter_by_flag, List.map_cons, List.zip_cons_cons, List.filterMap_cons,
      List.filter_cons] at *
    cases hpa : p a <;> simp [hpa, ih]

theorem spanSurvivors_eq_filter (cells : List Cell) (sbs : List Box) :
    spanSurvivors cells sbs = cells.filter (fun c => !sbs.any (fun s => is_contained s c.box)) :=
  filter_by_flag_map _ _

theorem foldl_min_le_init (l : List Nat) (a : Nat) : l.foldl min a ≤ a := by
  induction l generalizing a with
  | nil => exact le_refl a
  | cons x l ih =>
    exact le_trans (ih (min a x)) (min_le_left a x)

theorem foldl_min_le_of_mem {l : List Nat} {x : Nat} (h : x ∈ l) (a : Nat) :
    l.foldl min a ≤ x := by
  induction l generalizing a with
  | nil => cases h
  | cons y l ih =>
    rcases List.mem_cons.mp h with rfl | hx
    · exact le_trans (foldl_min_le_init l (min a x)) (min_le_right a x)
    · exact ih hx (min a y)

theorem foldl_min_eq_init_or_mem (l : List Nat) (a : Nat) :
    l.foldl min a = a ∨ l.foldl min a ∈ l := by
  induction l generalizing a with
  | nil => exact Or.inl rfl
  | cons x l ih =>
    rcases ih (min a x) with h | h
    · rcases min_choice a x with hm | hm
      · exact Or.inl (by rw [List.foldl_cons, h, hm])
      · exact Or.inr (by rw [List.foldl_cons, h, hm]; exact List.mem_cons_self x l)
    · exact Or.inr (List.mem_cons_of_mem x h)

theorem le_foldl_max_init (l : List Nat) (a : Nat) : a ≤ l.foldl max a := by
  induction l generalizing a with
  | nil => exact le_refl a
  | cons x l ih =>
    exact le_trans (le_max_left a x) (ih (max a x))

theorem le_foldl_max_of_mem {l : List Nat} {x : Nat} (h : x ∈ l) (a : Nat) :
    x ≤ l.foldl max a := by
  induction l generalizing a with
  | nil => cases h
  | cons y l ih =>
    rcases List.mem_cons.mp h with rfl | hx
    · exact le_trans (le_max_right a x) (le_foldl_max_init l (max a x))
    · exact ih hx (max a y)

theorem foldl_max_eq_init_or_mem (l : List Nat) (a : Nat) :
    l.foldl max a = a ∨ l.foldl max a ∈ l := by
  induction l generalizing a with
  | nil => exact Or.inl rfl
  | cons x l ih =>
    rcases ih (max a x) with h | h
    · rcases max_choice a x with hm | hm
      · exact Or.inl (by rw [List.foldl_cons, h, hm])
      · exact Or.inr (by rw [List.foldl_cons, h, hm]; exact List.mem_cons_self x l)
    · exact Or.inr (List.mem_cons_of_mem x h)

theorem mergedCells_nil (sbs : List Box) : mergedCells [] sbs = [] := by
  induction sbs with
  | nil => rfl
  | cons s sbs ih =>
    simp [mergedCells, List.filterMap_cons, childCells, mergedCellOf, ih]

theorem filter_contained_nil (sbs : List Box) :
    filter_contained_cells_within_spancell [] sbs = [] := by
  unfold filter_contained_cells_within_spancell
  rw [mergedCells_nil]
  rfl

theorem extract_cells_nil_cols (rb : List Box) : extract_cells rb [] = [] := by
  unfold extract_cells
  generalize rb.enum = l
  induction l with
  | nil => rfl
  | cons p l ih => simp [List.flatMap_cons, extractRowCells, ih]

/-! Concrete inputs used by counterexamples and witnesses. -/

/-- A primitive cell at grid position (1, 1). -/
def cW1 : Cell := ⟨1, 1, 1, 1, ⟨0, 0, 10, 10⟩, none⟩

/-- A primitive cell at grid position (2, 2), diagonal from `cW1`. -/
def cW2 : Cell := ⟨2, 2, 1, 1, ⟨20, 20, 30, 30⟩, none⟩

/-- A span box fully covering the boxes of `cW1` and `cW2`. -/
def sW : Box := ⟨0, 0, 30, 30⟩

/-- A box far away from every cell used in the examples. -/
def farBox : Box := ⟨1000, 1000, 1010, 1010⟩

/-- A column box used by the degenerate-detection counterexample. -/
def colW : Box := ⟨0, 0, 10, 100⟩

/-! Claim theorems. -/

/-- C6: the cell list returned by `filter_contained_cells_within_spancell` is
always sorted ascending by the key (row, col), so re-sorting the output by that
key returns it unchanged. -/
theorem spanmerge_sorted_idempotent (cells : List Cell) (sbs : List Box) :
    List.Sorted cellLE (filter_contained_cells_within_spancell cells sbs) ∧
    List.insertionSort cellLE (filter_contained_cells_within_spancell cells sbs) =
      filter_contained_cells_within_spancell cells sbs := by
  have hs : List.Sorted cellLE (filter_contained_cells_within_spancell cells sbs) :=
    List.sorted_insertionSort cellLE _
  exact ⟨hs, hs.insertionSort_eq⟩

/-- C4: a span box containing no cell of the input contributes nothing:
removing it from the span-box list leaves the output of
`filter_contained_cells_within_spancell` unchanged, and no error occurs (the
function is total). -/
theorem span_zero_match_noop (cells : List Cell) (s : Box) (sbs1 sbs2 : List Box)
    (h : ∀ c ∈ cells, is_contained s c.box = false) :
    filter_contained_cells_within_spancell cells (sbs1 ++ s :: sbs2) =
      filter_contained_cells_within_spancell cells (sbs1 ++ sbs2) := by
  have hchild : childCells s cells = [] := by
    unfold childCells
    rw [List.filter_eq_nil_iff]
    intro c hc
    simp [h c hc]
  unfold filter_contained_cells_within_spancell
  have hsurv : spanSurvivors cells (sbs1 ++ s :: sbs2) = spanSurvivors cells (sbs1 ++ sbs2) := by
    rw [spanSurvivors_eq_filter, spanSurvivors_eq_filter]
    apply List.filter_congr
    intro c hc
    simp [List.any_append, List.any_cons, h c hc]
  have hmerged : mergedCells cells (sbs1 ++ s :: sbs2) = mergedCells cells (sbs1 ++ sbs2) := by
    unfold mergedCells
    rw [List.filterMap_append, List.filterMap_append, List.filterMap_cons, hchild]
    rfl
  rw [hsurv, hmerged]

/-- Witness for C4: a span box far away from the single input cell is dropped
with no effect on the output. -/
theorem span_zero_match_noop_witness :
    filter_contained_cells_within_spancell [cW1] ([] ++ farBox :: []) =
      filter_contained_cells_within_spancell [cW1] ([] ++ []) :=
  span_zero_match_noop [cW1] farBox [] [] (by decide)

/-- C2 (amended): with zero row boxes or zero column boxes the table-assembly
step returns normally with an empty cell list, and the returned counts are the
lengths of the row-box and column-box lists (so `n_row` and `n_col` are both 0
only when both lists are empty). -/
theorem extract_cell_elements_degenerate (rows cols spans : List Box)
    (h : rows = [] ∨ cols = []) :
    extract_cell_elements rows cols spans = ([], rows.length, cols.length) := by
  rcases h with h | h
  · subst h
    show (filter_contained_cells_within_spancell
        (extract_cells (List.insertionSort boxYLE []) (List.insertionSort boxXLE cols)) spans,
        (List.insertionSort boxYLE ([] : List Box)).length,
        (List.insertionSort boxXLE cols).length) = _
    rw [show List.insertionSort boxYLE ([] : List Box) = [] from rfl]
    rw [show extract_cells [] (List.insertionSort boxXLE cols) = [] from rfl]
    rw [filter_contained_nil, List.length_insertionSort]
  · subst h
    show (filter_contained_cells_within_spancell
        (extract_cells (List.insertionSort boxYLE rows) (List.insertionSort boxXLE [])) spans,
        (List.insertionSort boxYLE rows).length,
        (List.insertionSort boxXLE ([] : List Box)).length) = _
    rw [show List.insertionSort boxXLE ([] : List Box) = [] from rfl]
    rw [extract_cells_nil_cols, filter_contained_nil, List.length_insertionSort]

/-- Counterexample for C2: with zero row boxes but one column box the assembly
step returns `n_col = 1`, not `n_col = 0` as the claim states. -/
theorem extract_cell_elements_ncol_cex :
    extract_cell_elements [] [colW] [] = ([], 0, 1) ∧
    (extract_cell_elements [] [colW] []).2.2 ≠ 0 := by
  constructor
  · rfl
  · intro h
    simp [extract_cell_elements] at h

/-- Witness for C2 (amended): the degenerate case evaluated at zero row boxes
and one column box. -/
theorem extract_cell_elements_degenerate_witness :
    extract_cell_elements [] [colW] [] = ([], ([] : List Box).length, [colW].length) :=
  extract_cell_elements_degenerate [] [colW] [] (Or.inl rfl)

/-- C1 (amended): a span box matching the non-empty child list `c :: cs` makes
`filter_contained_cells_within_spancell` emit exactly one merged cell for it,
whose grid rectangle is the bounding rectangle of the matched positions: its
(row, col) is the componentwise minimum over the matched cells, both bounds are
attained, the box is the box of the span, the contents are empty, and every
matched cell is removed from the pass-through portion of the output. The
product row_span * col_span equals the area of that bounding rectangle, which
is not in general the number of matched cells. -/
theorem span_merge_one_cell (cells : List Cell) (s : Box) (c : Cell) (cs : List Cell)
    (h : childCells s cells = c :: cs) :
    mergedCells cells [s] = [mergeOf s c cs] ∧
    filter_contained_cells_within_spancell cells [s] =
      List.insertionSort cellLE (spanSurvivors cells [s] ++ [mergeOf s c cs]) ∧
    (mergeOf s c cs).box = s ∧
    (mergeOf s c cs).contents = none ∧
    (∀ x ∈ childCells s cells,
        (mergeOf s c cs).row ≤ x.row ∧
        x.row + 1 ≤ (mergeOf s c cs).row + (mergeOf s c cs).row_span ∧
        (mergeOf s c cs).col ≤ x.col ∧
        x.col + 1 ≤ (mergeOf s c cs).col + (mergeOf s c cs).col_span) ∧
    (∃ x ∈ childCells s cells, x.row = (mergeOf s c cs).row) ∧
    (∃ x ∈ childCells s cells, x.row + 1 = (mergeOf s c cs).row + (mergeOf s c cs).row_span) ∧
    (∃ x ∈ childCells s cells, x.col = (mergeOf s c cs).col) ∧
    (∃ x ∈ childCells s cells, x.col + 1 = (mergeOf s c cs).col + (mergeOf s c cs).col_span) ∧
    (∀ x ∈ childCells s cells, x ∉ spanSurvivors cells [s]) := by
  have hmerged : mergedCells cells [s] = [mergeOf s c cs] := by
    unfold mergedCells
    rw [List.filterMap_cons, h]
    rfl
  have hrmin_le : ∀ x ∈ c :: cs, (cs.map Cell.row).foldl min c.row ≤ x.row := by
    intro x hx
    rcases List.mem_cons.mp hx with rfl | hx
    · exact foldl_min_le_init _ _
    · exact foldl_min_le_of_mem (List.mem_map_of_mem Cell.row hx) _
  have hrmax_ge : ∀ x ∈ c :: cs, x.row ≤ (cs.map Cell.row).foldl max c.row := by
    intro x hx
    rcases List.mem_cons.mp hx with rfl | hx
    · exact le_foldl_max_init _ _
    · exact le_foldl_max_of_mem (List.mem_map_of_mem Cell.row hx) _
  have hcmin_le : ∀ x ∈ c :: cs, (cs.map Cell.col).foldl min c.col ≤ x.col := by
    intro x hx
    rcases List.mem_cons.mp hx with rfl | hx
    · exact foldl_min_le_init _ _
    · exact foldl_min_le_of_mem (List.mem_map_of_mem Cell.col hx) _
  have hcmax_ge : ∀ x ∈ c :: cs, x.col ≤ (cs.map Cell.col).foldl max c.col := by
    intro x hx
    rcases List.mem_cons.mp hx with rfl | hx
    · exact le_foldl_max_init _ _
    · exact le_foldl_max_of_mem (List.mem_map_of_mem Cell.col hx) _
  have hattain_min_row : ∃ x ∈ c :: cs, x.row = (cs.map Cell.row).foldl min c.row := by
    rcases foldl_min_eq_init_or_mem (cs.map Cell.row) c.row with hm | hm
    · exact ⟨c, List.mem_cons_self c cs, hm.symm⟩
    · rcases List.mem_map.mp hm with ⟨x, hx, hxr⟩
      exact ⟨x, List.mem_cons_of_mem c hx, hxr⟩
  have hattain_max_row : ∃ x ∈ c :: cs, x.row = (cs.map Cell.row).foldl max c.row := by
    rcases foldl_max_eq_init_or_mem (cs.map Cell.row) c.row with hm | hm
    · exact ⟨c, List.mem_cons_self c cs, hm.symm⟩
    · rcases List.mem_map.mp hm with ⟨x, hx, hxr⟩
      exact ⟨x, List.mem_cons_of_mem c hx, hxr⟩
  have hattain_min_col : ∃ x ∈ c :: cs, x.col = (cs.map Cell.col).foldl min c.col := by
    rcases foldl_min_eq_init_or_mem (cs.map Cell.col) c.col with hm | hm
    · exact ⟨c, List.mem_cons_self c cs, hm.symm⟩
    · rcases List.mem_map.mp hm with ⟨x, hx, hxc⟩
      exact ⟨x, List.mem_cons_of_mem c hx, hxc⟩
  have hattain_max_col : ∃ x ∈ c :: cs, x.col = (cs.map Cell.col).foldl max c.col := by
    rcases foldl_max_eq_init_or_mem (cs.map Cell.col) c.col with hm | hm
    · exact ⟨c, List.mem_cons_self c cs, hm.symm⟩
    · rcases List.mem_map.mp hm with ⟨x, hx, hxc⟩
      exact ⟨x, List.mem_cons_of_mem c hx, hxc⟩
  have hrspan : (mergeOf s c cs).row + (mergeOf s c cs).row_span =
      (cs.map Cell.row).foldl max c.row + 1 := by
    have h1 : (cs.map Cell.row).foldl min c.row ≤ (cs.map Cell.row).foldl max c.row :=
      le_trans (foldl_min_le_init _ _) (le_foldl_max_init _ _)
    simp only [mergeOf]
    omega
  have hcspan : (mergeOf s c cs).col + (mergeOf s c cs).col_span =
      (cs.map Cell.col).foldl max c.col + 1 := by
    have h1 : (cs.map Cell.col).foldl min c.col ≤ (cs.map Cell.col).foldl max c.col :=
      le_trans (foldl_min_le_init _ _) (le_foldl_max_init _ _)
    simp only [mergeOf]
    omega
  refine ⟨hmerged, by rw [filter_contained_cells_within_spancell, hmerged], rfl, rfl,
    ?_, ?_, ?_, ?_, ?_, ?_⟩
  · intro x hx
    rw [h] at hx
    refine ⟨hrmin_le x hx, ?_, hcmin_le x hx, ?_⟩
    · rw [hrspan]; exact Nat.add_le_add_right (hrmax_ge x hx) 1
    · rw [hcspan]; exact Nat.add_le_add_right (hcmax_ge x hx) 1
  · rw [h]; exact hattain_min_row
  · rw [h, hrspan]
    rcases hattain_max_row with ⟨x, hx, hxr⟩
    exact ⟨x, hx, by rw [hxr]⟩
  · rw [h]; exact hattain_min_col
  · rw [h, hcspan]
    rcases hattain_max_col with ⟨x, hx, hxc⟩
    exact ⟨x, hx, by rw [hxc]⟩
  · intro x hx hmem
    rw [spanSurvivors_eq_filter] at hmem
    have hflag := (List.mem_filter.mp hmem).2
    have hcont : is_contained s x.box = true := by
      rw [childCells] at hx
      exact (List.mem_filter.mp hx).2
    simp [hcont] at hflag

/-- Witness for C1 (amended): a span box matching the two diagonal cells `cW1`
and `cW2` yields the single merged cell at (1, 1) spanning 2 rows and 2
columns. -/
theorem span_merge_one_cell_witness :
    mergedCells [cW1, cW2] [sW] = [mergeOf sW cW1 [cW2]] :=
  (span_merge_one_cell [cW1, cW2] sW cW1 [cW2] (by decide)).1

/-- Counterexample for C1: the span box `sW` matches exactly k = 2 primitive
cells, yet the emitted merged cell has row_span * col_span = 4, not 2, because
the matched cells do not tile their bounding rectangle. -/
theorem span_merge_count_cex :
    (childCells sW [cW1, cW2]).length = 2 ∧
    filter_contained_cells_within_spancell [cW1, cW2] [sW] =
      [⟨1, 1, 2, 2, sW, none⟩] ∧
    ¬ ((⟨1, 1, 2, 2, sW, none⟩ : Cell).row_span * (⟨1, 1, 2, 2, sW, none⟩ : Cell).col_span =
        (childCells sW [cW1, cW2]).length) := by
  refine ⟨by decide, by decide, by decide⟩

theorem length_filterMap_of_isSome {α β : Type} (f : α → Option β) (l : List α)
    (h : ∀ a ∈ l, (f a).isSome) : (l.filterMap f).length = l.length := by
  induction l with
  | nil => rfl
  | cons a l ih =>
    rw [List.filterMap_cons]
    cases hfa : f a with
    | none => exact absurd (hfa ▸ h a (List.mem_cons_self a l)) (by simp)
    | some b =>
      simp only [List.length_cons]
      rw [ih (fun x hx => h x (List.mem_cons_of_mem a hx))]

theorem snd_mem_of_mem_enum {α : Type} {l : List α} {p : Nat × α} (h : p ∈ l.enum) :
    p.2 ∈ l := by
  rw [List.mem_enum_iff_getElem?] at h
  obtain ⟨hlt, heq⟩ := List.getElem?_eq_some.mp h
  exact heq ▸ List.getElem_mem hlt

theorem mem_extract_cells (rb cb : List Box) (c : Cell) :
    c ∈ extract_cells rb cb ↔
      ∃ i j r co ib, rb[i]? = some r ∧ cb[j]? = some co ∧
        calc_intersection r co = some ib ∧ c = mkPrimitiveCell i j ib := by
  unfold extract_cells extractRowCells
  simp only [List.mem_flatMap, List.mem_filterMap, List.mem_enum_iff_getElem?,
    Option.map_eq_some', Prod.exists]
  constructor
  · rintro ⟨i, r, hir, ⟨j, co, hjco, ib, hib, rfl⟩⟩
    exact ⟨i, j, r, co, ib, hir, hjco, hib, rfl⟩
  · rintro ⟨i, j, r, co, ib, hir, hjco, hib, rfl⟩
    exact ⟨i, r, hir, ⟨j, co, hjco, ib, hib, rfl⟩⟩

theorem length_extract_cells_eq_sum (rb cb : List Box) :
    (extract_cells rb cb).length =
      (rb.enum.map (fun p => (extractRowCells p.1 p.2 cb).length)).sum := by
  unfold extract_cells
  rw [List.length_flatMap]
  rfl

/-- C5: `extract_cells` emits the primitive cell `row = i+1, col = j+1`,
`row_span = col_span = 1`, box equal to the intersection and empty contents for
exactly those pairs (i, j) of a row box and a column box with a non-empty
intersection; all row indices lie in 1..m and column indices in 1..n, the
output never exceeds m * n cells, and when every pairwise intersection is
non-empty it has exactly m * n cells. -/
theorem grid_cells_spec (rb cb : List Box) :
    (∀ c : Cell, c ∈ extract_cells rb cb ↔
       ∃ i j r co ib, rb[i]? = some r ∧ cb[j]? = some co ∧
         calc_intersection r co = some ib ∧ c = mkPrimitiveCell i j ib) ∧
    (∀ c ∈ extract_cells rb cb,
       1 ≤ c.row ∧ c.row ≤ rb.length ∧ 1 ≤ c.col ∧ c.col ≤ cb.length ∧
       c.row_span = 1 ∧ c.col_span = 1 ∧ c.contents = none) ∧
    (extract_cells rb cb).length ≤ rb.length * cb.length ∧
    ((∀ r ∈ rb, ∀ co ∈ cb, calc_intersection r co ≠ none) →
       (extract_cells rb cb).length = rb.length * cb.length) := by
  refine ⟨mem_extract_cells rb cb, ?_, ?_, ?_⟩
  · intro c hc
    obtain ⟨i, j, r, co, ib, hir, hjco, _, rfl⟩ := (mem_extract_cells rb cb c).mp hc
    obtain ⟨hi, _⟩ := List.getElem?_eq_some.mp hir
    obtain ⟨hj, _⟩ := List.getElem?_eq_some.mp hjco
    have hrow : (mkPrimitiveCell i j ib).row = i + 1 := rfl
    have hcol : (mkPrimitiveCell i j ib).col = j + 1 := rfl
    exact ⟨by rw [hrow]; omega, by rw [hrow]; omega, by rw [hcol]; omega, by rw [hcol]; omega,
      rfl, rfl, rfl⟩
  · rw [length_extract_cells_eq_sum]
    have hb : ∀ x ∈ rb.enum.map (fun p => (extractRowCells p.1 p.2 cb).length),
        x ≤ cb.length := by
      intro x hx
      obtain ⟨p, _, rfl⟩ := List.mem_map.mp hx
      unfold extractRowCells
      exact le_trans (List.length_filterMap_le _ _) (le_of_eq List.enum_length)
    have := List.sum_le_card_nsmul _ cb.length hb
    rwa [List.length_map, List.enum_length, smul_eq_mul] at this
  · intro hall
    rw [length_extract_cells_eq_sum]
    have hb : ∀ x ∈ rb.enum.map (fun p => (extractRowCells p.1 p.2 cb).length),
        x = cb.length := by
      intro x hx
      obtain ⟨p, hp, rfl⟩ := List.mem_map.mp hx
      unfold extractRowCells
      rw [length_filterMap_of_isSome, List.enum_length]
      intro q hq
      cases hco : calc_intersection p.2 q.2 with
      | none => exact absurd hco (hall p.2 (snd_mem_of_mem_enum hp) q.2 (snd_mem_of_mem_enum hq))
      | some ib => rfl
    have := List.sum_eq_card_nsmul _ cb.length hb
    rwa [List.length_map, List.enum_length, smul_eq_mul] at this

/-- A row box intersecting `colW` in its top-left corner. -/
def rowW : Box := ⟨0, 0, 100, 10⟩

/-- Witness for C5: one row box and one column box with non-empty intersection
yield exactly 1 * 1 cells. -/
theorem grid_cells_spec_witness :
    (extract_cells [rowW] [colW]).length = [rowW].length * [colW].length :=
  (grid_cells_spec [rowW] [colW]).2.2.2 (by decide)

/-- Two cells are disjoint in (row, col) grid space when their half-open grid
rectangles [row, row + row_span) x [col, col + col_span) do not intersect. -/
def gridDisjoint (a b : Cell) : Prop :=
  a.row + a.row_span ≤ b.row ∨ b.row + b.row_span ≤ a.row ∨
  a.col + a.col_span ≤ b.col ∨ b.col + b.col_span ≤ a.col

instance : ∀ a b, Decidable (gridDisjoint a b) := fun a b => by
  unfold gridDisjoint
  infer_instance

theorem le_fst_of_mem_enumFrom {α : Type} :
    ∀ {l : List α} {n : Nat} {p : Nat × α}, p ∈ List.enumFrom n l → n ≤ p.1 := by
  intro l
  induction l with
  | nil => intro n p h; cases h
  | cons a l ih =>
    intro n p h
    rw [List.enumFrom_cons] at h
    rcases List.mem_cons.mp h with rfl | h
    · exact le_refl n
    · exact le_trans (Nat.le_succ n) (ih h)

theorem pairwise_fst_lt_enumFrom {α : Type} (l : List α) (n : Nat) :
    List.Pairwise (fun p q => p.1 < q.1) (List.enumFrom n l) := by
  induction l generalizing n with
  | nil => exact List.Pairwise.nil
  | cons a l ih =>
    rw [List.enumFrom_cons]
    refine List.Pairwise.cons ?_ (ih (n + 1))
    intro q hq
    exact lt_of_lt_of_le (Nat.lt_succ_self n) (le_fst_of_mem_enumFrom hq)

theorem mem_extractRowCells {i : Nat} {r : Box} {cb : List Box} {c : Cell}
    (h : c ∈ extractRowCells i r cb) :
    c.row = i + 1 ∧ c.row_span = 1 ∧ c.col_span = 1 := by
  unfold extractRowCells at h
  obtain ⟨q, _, hmap⟩ := List.mem_filterMap.mp h
  obtain ⟨ib, _, rfl⟩ := Option.map_eq_some'.mp hmap
  exact ⟨rfl, rfl, rfl⟩

theorem pairwise_col_extractRowCells (i : Nat) (r : Box) (cb : List Box) :
    List.Pairwise (fun c d => c.col < d.col) (extractRowCells i r cb) := by
  unfold extractRowCells
  rw [List.pairwise_filterMap]
  have henum : cb.enum = List.enumFrom 0 cb := rfl
  rw [henum]
  refine (pairwise_fst_lt_enumFrom cb 0).imp ?_
  intro q q' hlt x hx y hy
  rw [Option.mem_def, Option.map_eq_some'] at hx hy
  obtain ⟨ib, _, rfl⟩ := hx
  obtain ⟨ib', _, rfl⟩ := hy
  exact Nat.succ_lt_succ hlt

theorem pairwise_gridDisjoint_flatMap (cb : List Box) :
    ∀ (rbs : List Box) (n : Nat),
      List.Pairwise gridDisjoint
        ((List.enumFrom n rbs).flatMap (fun p => extractRowCells p.1 p.2 cb)) := by
  intro rbs
  induction rbs with
  | nil => intro n; exact List.Pairwise.nil
  | cons r rbs ih =>
    intro n
    rw [List.enumFrom_cons, List.flatMap_cons, List.pairwise_append]
    refine ⟨?_, ih (n + 1), ?_⟩
    · refine List.Pairwise.imp_of_mem ?_ (pairwise_col_extractRowCells n r cb)
      intro a b ha hb hcol
      obtain ⟨_, _, hacs⟩ := mem_extractRowCells ha
      obtain ⟨_, _, _⟩ := mem_extractRowCells hb
      unfold gridDisjoint
      omega
    · intro a ha b hb
      obtain ⟨p, hp, hbp⟩ := List.mem_flatMap.mp hb
      obtain ⟨har, hars, _⟩ := mem_extractRowCells ha
      obtain ⟨hbr, _, _⟩ := mem_extractRowCells hbp
      have hge : n + 1 ≤ p.1 := le_fst_of_mem_enumFrom hp
      unfold gridDisjoint
      omega

/-- C3 (amended): the pass-through primitive cells in the output of
`filter_contained_cells_within_spancell` applied to a grid built by
`extract_cells` are pairwise disjoint in (row, col) grid space; cells
introduced by the span-merge loop can overlap other output cells (see the
counterexample), so the invariant holds for the surviving primitive cells
only. -/
theorem survivors_grid_disjoint (rb cb sbs : List Box) :
    List.Pairwise gridDisjoint (spanSurvivors (extract_cells rb cb) sbs) := by
  rw [spanSurvivors_eq_filter]
  apply List.Pairwise.filter
  have h : extract_cells rb cb =
      (List.enumFrom 0 rb).flatMap (fun p => extractRowCells p.1 p.2 cb) := rfl
  rw [h]
  exact pairwise_gridDisjoint_flatMap cb rb 0

/-- The second row box of the overlap counterexample. -/
def rowB : Box := ⟨0, 50, 100, 60⟩

/-- The second column box of the overlap counterexample. -/
def colR : Box := ⟨50, 0, 60, 100⟩

/-- Counterexample for C3: on the 2 x 2 grid built from two row boxes and two
column boxes, the two span boxes `rowW` (covering grid row 1) and `colW`
(covering grid column 1) both claim the primitive cell (1, 1); the output then
contains two distinct merged cells whose grid rectangles both contain position
(1, 1), so they are not disjoint. -/
theorem overlap_cex :
    filter_contained_cells_within_spancell (extract_cells [rowW, rowB] [colW, colR])
        [rowW, colW] =
      [⟨1, 1, 1, 2, rowW, none⟩, ⟨1, 1, 2, 1, colW, none⟩,
        ⟨2, 2, 1, 1, ⟨50, 50, 60, 60⟩, none⟩] ∧
    (⟨1, 1, 1, 2, rowW, none⟩ : Cell) ≠ ⟨1, 1, 2, 1, colW, none⟩ ∧
    ¬ gridDisjoint ⟨1, 1, 1, 2, rowW, none⟩ ⟨1, 1, 2, 1, colW, none⟩ := by
  refine ⟨by decide, by decide, by decide⟩

/-! Embedding of `utils/export.py`. -/

/-- The single-quote character used inside the table opening tag. -/
def sq : String := String.singleton (Char.ofNat 39)

/-- A table as consumed by `export_html`: the fields of
`TableStructureRecognizerSchema`. -/
structure Table where
  box : Box
  n_row : Nat
  n_col : Nat
  cells : List Cell
  order : Nat
  deriving DecidableEq

/-- A paragraph as consumed by `export_html`: a box and textual contents. -/
structure Paragraph where
  box : Box
  contents : String
  deriving DecidableEq

/-- One entry of the `elements` list of `export_html`: the owning box and the
rendered HTML fragment. -/
structure Elem where
  box : Box
  html : String
  deriving DecidableEq

/-- The `<td>` fragment rendered for one cell, with empty contents when the
contents are absent. -/
def cellTd (c : Cell) : String :=
  "<td rowspan=\"" ++ toString c.row_span ++ "\" colspan=\"" ++ toString c.col_span ++
    "\">" ++ c.contents.getD "" ++ "</td>"

/-- The cell loop of the table rendering in `export_html`: `pre_row` starts at 1
and a new `</tr><tr>` is opened whenever the row of the next cell differs from
it. -/
def rowLoop : Nat → List Cell → String
  | _, [] => ""
  | pre_row, c :: cs =>
    (if c.row ≠ pre_row then "</tr><tr>" else "") ++ cellTd c ++ rowLoop c.row cs

/-- The opening of the table markup (the `table_html` initial value). -/
def tableOpen : String :=
  "<table border=" ++ sq ++ "1" ++ sq ++ " style=" ++ sq ++ "border-collapse: collapse" ++
    sq ++ "><tr>"

/-- The complete table fragment: the `for`-loop over cells followed by the
`else` branch appending the closing tags. -/
def renderTable (cells : List Cell) : String :=
  tableOpen ++ rowLoop 1 cells ++ "</tr></table>"

/-- The element appended to `elements` for one table. -/
def tableElem (t : Table) : Elem :=
  ⟨t.box, renderTable t.cells⟩

/-- The element appended to `elements` for one paragraph. -/
def paraElem (p : Paragraph) : Elem :=
  ⟨p.box, "<p>" ++ p.contents ++ "</p>"⟩

/-- The sort key of `sorted(elements, key=lambda x: x["box"][1])`: the top edge
of the owning box. -/
def elemLE (a b : Elem) : Prop := a.box.y1 ≤ b.box.y1

instance : DecidableRel elemLE := fun a b => by
  unfold elemLE
  infer_instance

instance : IsTotal Elem elemLE :=
  ⟨by intro a b; unfold elemLE; omega⟩

instance : IsTrans Elem elemLE :=
  ⟨by intro a b c; unfold elemLE; omega⟩

/-- The element list of `export_html` after the stable sort by top edge: all
table fragments are appended before all paragraph fragments, then the list is
sorted. -/
def exportElements (tables : List Table) (paragraphs : List Paragraph) : List Elem :=
  List.insertionSort elemLE (tables.map tableElem ++ paragraphs.map paraElem)

/-- Embeds `add_html_tag`. -/
def add_html_tag (text : String) : String :=
  "<html><body>" ++ text ++ "</body></html>"

/-- Embeds the pure part of `export_html`: concatenate the sorted fragments and
wrap them in the root container (file output is omitted). -/
def export_html (tables : List Table) (paragraphs : List Paragraph) : String :=
  add_html_tag (String.join ((exportElements tables paragraphs).map Elem.html))

/-! Stability of the insertion sort: filtering the sorted list on one key value
gives the same sublist as filtering the input, provided the order relation
holds between any two elements of equal key. -/

theorem filter_orderedInsert {α : Type} (r : α → α → Prop) [DecidableRel r] (p : α → Bool)
    (hp : ∀ a b, p a = true → p b = true → r a b) (a : α) (l : List α) :
    (List.orderedInsert r a l).filter p =
      if p a then a :: l.filter p else l.filter p := by
  induction l with
  | nil => simp [List.orderedInsert, List.filter_cons]
  | cons d ds ih =>
    rw [List.orderedInsert]
    by_cases hrad : r a d
    · rw [if_pos hrad, List.filter_cons]
    · rw [if_neg hrad, List.filter_cons, ih]
      by_cases hpa : p a
      · have hpd : p d = false := by
          cases hpd' : p d
          · rfl
          · exact absurd (hp a d hpa hpd') hrad
        simp [List.filter_cons, hpa, hpd]
      · simp [List.filter_cons, hpa]

theorem filter_insertionSort {α : Type} (r : α → α → Prop) [DecidableRel r] (p : α → Bool)
    (hp : ∀ a b, p a = true → p b = true → r a b) (l : List α) :
    (List.insertionSort r l).filter p = l.filter p := by
  induction l with
  | nil => rfl
  | cons a l ih =>
    rw [List.insertionSort, filter_orderedInsert r p hp, ih, List.filter_cons]

theorem elemLE_of_eq_key (y : Int) :
    ∀ a b : Elem, (a.box.y1 == y) = true → (b.box.y1 == y) = true → elemLE a b := by
  intro a b ha hb
  unfold elemLE
  rw [beq_iff_eq] at ha hb
  rw [ha, hb]

/-- A paragraph whose top edge is 50. -/
def paraAt50 : Paragraph := ⟨⟨0, 50, 40, 60⟩, "text"⟩

/-- A table whose top edge is 100. -/
def tableAt100 : Table := ⟨⟨0, 100, 50, 150⟩, 1, 1, [], 0⟩

/-- C7: the fragments rendered by `export_html` are concatenated in ascending
order of the top edge of the owning box, the sort is stable (filtering on any
key value returns the fragments in candidate order), and in particular a text
block with top edge 50 renders before a table with top edge 100. -/
theorem export_fragments_ordered (tables : List Table) (paragraphs : List Paragraph) :
    List.Sorted elemLE (exportElements tables paragraphs) ∧
    (∀ y : Int, (exportElements tables paragraphs).filter (fun e => e.box.y1 == y) =
       (tables.map tableElem ++ paragraphs.map paraElem).filter (fun e => e.box.y1 == y)) ∧
    export_html tables paragraphs =
      add_html_tag (String.join ((exportElements tables paragraphs).map Elem.html)) ∧
    exportElements [tableAt100] [paraAt50] = [paraElem paraAt50, tableElem tableAt100] := by
  refine ⟨List.sorted_insertionSort elemLE _, ?_, rfl, by decide⟩
  intro y
  exact filter_insertionSort elemLE _ (elemLE_of_eq_key y) _

/-- C10: among output fragments with equal top edge, every table fragment
precedes every paragraph fragment, because `export_html` appends all table
fragments to the candidate list before any paragraph fragment and the sort by
top edge is stable. -/
theorem export_ties_tables_first (tables : List Table) (paragraphs : List Paragraph) (y : Int) :
    (exportElements tables paragraphs).filter (fun e => e.box.y1 == y) =
      (tables.map tableElem).filter (fun e => e.box.y1 == y) ++
        (paragraphs.map paraElem).filter (fun e => e.box.y1 == y) := by
  unfold exportElements
  rw [filter_insertionSort elemLE _ (elemLE_of_eq_key y), List.filter_append]

/-- A table whose cell list is empty. -/
def emptyTable : Table := ⟨⟨0, 0, 50, 50⟩, 0, 0, [], 0⟩

/-- C9: a table with no cells still renders as markup containing exactly one
row element, because the loop body runs zero times and the `for`-`else` clause
always appends the closing `</tr></table>` after the initial `<tr>`. -/
theorem empty_table_one_row :
    renderTable [] =
      "<table border=" ++ sq ++ "1" ++ sq ++ " style=" ++ sq ++ "border-collapse: collapse" ++
        sq ++ "><tr></tr></table>" ∧
    export_html [emptyTable] [] = add_html_tag (renderTable []) := by
  constructor
  · rfl
  · rfl

/-! Embedding of the batch loop of `cli/main.py`. -/

/-- The log entries that the batch loop of `main` can emit per file: the
pre-processing message and the total-time message after success. The
`errorCaught` entry stands for a log record of a caught failure; the embedded
loop never produces it because the handler of the source is a bare
`continue`. -/
inductive LogEntry (α : Type) where
  | processing (f : α)
  | totalTime (f : α)
  | errorCaught (f : α)
  deriving DecidableEq

/-- Embeds the directory branch of `main`: for each file, log the processing
message, run the per-file processing (an opaque fallible step), log the total
time on success, and on failure just continue with the next file. -/
def mainLoop {α ε β : Type} (proc : α → Except ε β) (files : List α) : List (LogEntry α) :=
  files.flatMap (fun f =>
    LogEntry.processing f :: (match proc f with
      | Except.ok _ => [LogEntry.totalTime f]
      | Except.error _ => []))

theorem errorCaught_not_mem_mainLoop {α ε β : Type} (proc : α → Except ε β)
    (files : List α) (f : α) : LogEntry.errorCaught f ∉ mainLoop proc files := by
  intro h
  unfold mainLoop at h
  obtain ⟨x, _, hx⟩ := List.mem_flatMap.mp h
  rcases List.mem_cons.mp hx with heq | hx2
  · simp at heq
  · cases hpx : proc x with
    | ok v => rw [hpx] at hx2; simp at hx2
    | error e => rw [hpx] at hx2; simp at hx2

/-- C8 (amended): a failure of the per-file processing is caught and the batch
continues with every remaining file (the loop emits the processing entry for
each later file exactly as if the failing file were skipped), but the failure
is not logged: no log entry recording the caught error is ever emitted. -/
theorem batch_isolation {α ε β : Type} (proc : α → Except ε β) (fs1 : List α) (b : α)
    (fs2 : List α) (e : ε) (h : proc b = Except.error e) :
    mainLoop proc (fs1 ++ b :: fs2) =
      mainLoop proc fs1 ++ LogEntry.processing b :: mainLoop proc fs2 ∧
    LogEntry.errorCaught b ∉ mainLoop proc (fs1 ++ b :: fs2) := by
  refine ⟨?_, errorCaught_not_mem_mainLoop proc _ b⟩
  unfold mainLoop
  rw [List.flatMap_append, List.flatMap_cons, h]
  rfl

/-- A per-file processing step that always fails. -/
def procW : Nat → Except String Unit := fun _ => Except.error "boom"

/-- Witness for C8 (amended): with a failing middle file the batch still
processes the surrounding files and logs no error entry. -/
theorem batch_isolation_witness :
    mainLoop procW ([0] ++ 1 :: [2]) =
      mainLoop procW [0] ++ LogEntry.processing 1 :: mainLoop procW [2] ∧
    LogEntry.errorCaught 1 ∉ mainLoop procW ([0] ++ 1 :: [2]) :=
  batch_isolation procW [0] 1 [2] "boom" rfl

/-- Counterexample for C8: a batch of two files that both fail produces only
the two pre-processing log entries; no entry records the caught exception, so
the failure is caught but not logged. -/
theorem batch_silent_cex :
    mainLoop procW [0, 1] = [LogEntry.processing 0, LogEntry.processing 1] ∧
    LogEntry.errorCaught 0 ∉ mainLoop procW [0, 1] := by
  refine ⟨rfl, by decide⟩

end Yomitoku
